import Mathlib

/-!
Verification of the `marija` valentine-card front-end (`src/App.tsx`).

The development shallowly embeds the two components of the program:

* the interaction state controller (`choice`, `noClicks`, the derived
  `yesScale` / `noScale` factors and the `disabled` predicate of the
  negative button), and
* the particle animation loop of `EmojiFlowEverywhere` (spawning with
  FIFO eviction at `maxParticles`, scheduled removals, and the
  deactivation path that clears timers and particles).

Numeric values are modelled as exact rationals (`ℚ`); the random draws
consumed by `Math.random()` and the `Date.now()` timestamps are passed
as explicit inputs, so every definition is a total function of its
inputs exactly as the source computes it.
-/

namespace Marija

/-- `clamp` from `App.tsx` lines 7-9: `Math.max(min, Math.min(max, n))`. -/
def clamp (n lo hi : ℚ) : ℚ := max lo (min hi n)

/-- The two values of the `Choice` type (`"none" | "yes"`). -/
inductive Choice where
  | none : Choice
  | yes : Choice
deriving DecidableEq

/-- The interaction state of `App`: the current choice and the number of
clicks on the negative button (`noClicks`). -/
structure AppState where
  choice : Choice
  noClicks : ℕ
deriving DecidableEq

/-- Initial state: `useState<Choice>("none")`, `useState(0)`. -/
def initAppState : AppState := ⟨Choice.none, 0⟩

/-- `yesScale` (`App.tsx` lines 184-187): `clamp(1 + noClicks * 0.12, 1, 2.2)`. -/
def yesScale (noClicks : ℕ) : ℚ := clamp (1 + noClicks * (12/100)) 1 (22/10)

/-- `noScale` (`App.tsx` lines 188-191): `clamp(1 - noClicks * 0.12, 0.25, 1)`. -/
def noScale (noClicks : ℕ) : ℚ := clamp (1 - noClicks * (12/100)) (25/100) 1

/-- The `disabled` prop of the negative button (`App.tsx` line 296):
`noScale <= 0.26`. -/
def noDisabled (noClicks : ℕ) : Bool := noScale noClicks ≤ 26/100

/-- `onNo` (`App.tsx` lines 193-196): early return when `choice === "yes"`,
otherwise `setNoClicks(c => c + 1)`. -/
def onNo (s : AppState) : AppState :=
  if s.choice = Choice.yes then s else { s with noClicks := s.noClicks + 1 }

/-- `onYes` (`App.tsx` lines 198-200): `setChoice("yes")`. -/
def onYes (s : AppState) : AppState := { s with choice := Choice.yes }

/-- States reachable through the user interface: from the initial state, a
click on "Yes" always fires `onYes`, and a click on "No" fires `onNo` but is
only possible while the button is not disabled. -/
inductive UIReach : AppState → Prop
  | init : UIReach initAppState
  | clickYes (s : AppState) (hs : UIReach s) : UIReach (onYes s)
  | clickNo (s : AppState) (hs : UIReach s)
      (henabled : noDisabled s.noClicks = false) : UIReach (onNo s)

/-! ### Arithmetic facts about the scales -/

theorem clamp_le_clamp {x y : ℚ} (lo hi : ℚ) (h : x ≤ y) :
    clamp x lo hi ≤ clamp y lo hi :=
  max_le_max le_rfl (min_le_min le_rfl h)

theorem clamp_lower (x lo hi : ℚ) : lo ≤ clamp x lo hi := le_max_left _ _

theorem clamp_upper (x : ℚ) {lo hi : ℚ} (h : lo ≤ hi) : clamp x lo hi ≤ hi :=
  max_le h (min_le_left _ _)

theorem noScale_le_iff (n : ℕ) : noScale n ≤ 26/100 ↔ 7 ≤ n := by
  unfold noScale clamp
  constructor
  · intro h
    by_contra hn
    push_neg at hn
    have hn6 : (n : ℚ) ≤ 6 := by exact_mod_cast Nat.lt_succ_iff.mp hn
    have h1 : (28/100 : ℚ) ≤ 1 - (n : ℚ) * (12/100) := by linarith
    have h2 : (28/100 : ℚ) ≤ min (1 : ℚ) (1 - (n : ℚ) * (12/100)) :=
      le_min (show (28/100 : ℚ) ≤ 1 by norm_num) h1
    have h3 : (28/100 : ℚ) ≤ max (25/100 : ℚ) (min (1 : ℚ) (1 - (n : ℚ) * (12/100))) :=
      le_trans h2 (le_max_right _ _)
    exact absurd (le_trans h3 h) (by norm_num)
  · intro h
    have h7 : (7 : ℚ) ≤ n := by exact_mod_cast h
    have h1 : (1 : ℚ) - (n : ℚ) * (12/100) ≤ 16/100 := by linarith
    have h2 : min (1 : ℚ) (1 - (n : ℚ) * (12/100)) ≤ 16/100 :=
      le_trans (min_le_right _ _) h1
    have h3 : max (25/100 : ℚ) (min (1 : ℚ) (1 - (n : ℚ) * (12/100))) ≤ 25/100 :=
      max_le le_rfl (le_trans h2 (by norm_num))
    exact le_trans h3 (by norm_num)

theorem noDisabled_iff (n : ℕ) : noDisabled n = true ↔ 7 ≤ n := by
  rw [noDisabled, decide_eq_true_eq, noScale_le_iff]

theorem yesScale_zero : yesScale 0 = 1 := by
  norm_num [yesScale, clamp, min_def, max_def]

theorem noScale_zero : noScale 0 = 1 := by
  norm_num [noScale, clamp, min_def, max_def]

theorem yesScale_six : yesScale 6 = 172/100 := by
  norm_num [yesScale, clamp, min_def, max_def]

theorem noScale_six : noScale 6 = 28/100 := by
  norm_num [noScale, clamp, min_def, max_def]

theorem noScale_seven : noScale 7 = 25/100 := by
  norm_num [noScale, clamp, min_def, max_def]

theorem noDisabled_zero : noDisabled 0 = false := by
  rw [noDisabled, noScale_zero]; norm_num

theorem noDisabled_six : noDisabled 6 = false := by
  rw [noDisabled, noScale_six]; norm_num

theorem noDisabled_seven : noDisabled 7 = true := by
  rw [noDisabled, noScale_seven]; norm_num

/-! ### Claims about the interaction state controller -/

/-- C1: for every `declineCount` `n`, the derived button scales equal the
clamp formulas `clamp(1 + n × 0.12, 1, 2.2)` and `clamp(1 − n × 0.12, 0.25, 1)`;
in particular `n = 0` gives `(1, 1)` and `n = 6` gives `1.72` and `0.28`. -/
theorem scales_eq_clamp_formulas :
    (∀ n : ℕ, yesScale n = clamp (1 + n * (12/100)) 1 (22/10)
      ∧ noScale n = clamp (1 - n * (12/100)) (25/100) 1)
    ∧ yesScale 0 = 1 ∧ noScale 0 = 1
    ∧ yesScale 6 = 172/100 ∧ noScale 6 = 28/100 :=
  ⟨fun _n => ⟨rfl, rfl⟩, yesScale_zero, noScale_zero, yesScale_six, noScale_six⟩

/-- C4: `positiveScale` is monotonically non-decreasing in `declineCount` and
bounded in `[1, 2.2]`; `negativeScale` is monotonically non-increasing and
bounded in `[0.25, 1]`. -/
theorem scales_monotone_bounded :
    (∀ m n : ℕ, m ≤ n → yesScale m ≤ yesScale n)
    ∧ (∀ n : ℕ, 1 ≤ yesScale n ∧ yesScale n ≤ 22/10)
    ∧ (∀ m n : ℕ, m ≤ n → noScale n ≤ noScale m)
    ∧ (∀ n : ℕ, 25/100 ≤ noScale n ∧ noScale n ≤ 1) := by
  refine ⟨?_, ?_, ?_, ?_⟩
  · intro m n h
    apply clamp_le_clamp
    have : (m : ℚ) ≤ n := by exact_mod_cast h
    linarith
  · intro n
    exact ⟨clamp_lower _ _ _, clamp_upper _ (by norm_num)⟩
  · intro m n h
    apply clamp_le_clamp
    have : (m : ℚ) ≤ n := by exact_mod_cast h
    linarith
  · intro n
    exact ⟨clamp_lower _ _ _, clamp_upper _ (by norm_num)⟩

/-- C4 witness: monotonicity instantiated at `m = 2`, `n = 5`. -/
theorem scales_monotone_bounded_witness :
    yesScale 2 ≤ yesScale 5 ∧ noScale 5 ≤ noScale 2 :=
  ⟨scales_monotone_bounded.1 2 5 (by decide),
   scales_monotone_bounded.2.2.1 2 5 (by decide)⟩

/-- C5: once `choice = affirmed` (`"yes"`), `registerDecline` (`onNo`) is a
no-op on the whole state; while `choice` is undecided (`"none"`), each call
increments `noClicks` by exactly one and leaves `choice` unchanged. -/
theorem onNo_frame (s : AppState) :
    (s.choice = Choice.yes → onNo s = s)
    ∧ (s.choice = Choice.none →
        (onNo s).noClicks = s.noClicks + 1 ∧ (onNo s).choice = s.choice) := by
  constructor
  · intro h
    simp [onNo, h]
  · intro h
    have hne : ¬ s.choice = Choice.yes := by simp [h]
    simp [onNo, hne]

/-- C5 witness: `onNo` applied at the concrete states
`⟨yes, 3⟩` (no-op) and `⟨none, 3⟩` (increment). -/
theorem onNo_frame_witness :
    onNo ⟨Choice.yes, 3⟩ = ⟨Choice.yes, 3⟩
    ∧ (onNo ⟨Choice.none, 3⟩).noClicks = 3 + 1
    ∧ (onNo ⟨Choice.none, 3⟩).choice = Choice.none :=
  ⟨(onNo_frame ⟨Choice.yes, 3⟩).1 rfl,
   ((onNo_frame ⟨Choice.none, 3⟩).2 rfl).1,
   ((onNo_frame ⟨Choice.none, 3⟩).2 rfl).2⟩

/-- C6: the negative control is disabled exactly when `noScale ≤ 0.26`,
which happens exactly for `declineCount ≥ 7`: at `declineCount = 6` the
scale is `0.28` and the control is enabled, at `declineCount = 7` the scale
clamps to the floor `0.25` and the control is disabled. -/
theorem noButton_disabled_characterisation :
    noDisabled 6 = false ∧ noScale 6 = 28/100
    ∧ noDisabled 7 = true ∧ noScale 7 = 25/100
    ∧ (∀ n : ℕ, noDisabled n = true ↔ noScale n ≤ 26/100)
    ∧ (∀ n : ℕ, noDisabled n = true ↔ 7 ≤ n) := by
  refine ⟨noDisabled_six, noScale_six, noDisabled_seven, noScale_seven, ?_,
    noDisabled_iff⟩
  intro n
  rw [noDisabled, decide_eq_true_eq]

/-- C6 witness: the characterisation applied at `n = 9`. -/
theorem noButton_disabled_characterisation_witness :
    noDisabled 9 = true :=
  (noButton_disabled_characterisation.2.2.2.2.2 9).mpr (by norm_num)

/-- C10: in every state reachable through the user interface, `noClicks ≤ 7`;
moreover at `noClicks = 7` the negative button is disabled, so the bound is
absorbing (there is no reset path in the code). -/
theorem ui_decline_bound (s : AppState) (h : UIReach s) :
    s.noClicks ≤ 7 ∧ (s.noClicks = 7 → noDisabled s.noClicks = true) := by
  induction h with
  | init => exact ⟨by decide, fun h7 => by rw [h7]; exact noDisabled_seven⟩
  | clickYes t ht ih =>
    exact ⟨ih.1, fun h7 => by rw [h7]; exact noDisabled_seven⟩
  | clickNo t ht henabled ih =>
    have hlt : t.noClicks < 7 := by
      by_contra hge
      push_neg at hge
      have htrue : noDisabled t.noClicks = true := (noDisabled_iff _).mpr hge
      rw [htrue] at henabled
      exact Bool.noConfusion henabled
    constructor
    · unfold onNo
      split
      · exact Nat.le_of_lt hlt
      · exact hlt
    · intro h7
      rw [h7]; exact noDisabled_seven

/-- C10 witness: the bound applied to the concrete reachable state after one
enabled "No" click from the initial state. -/
theorem ui_decline_bound_witness :
    (onNo initAppState).noClicks ≤ 7 :=
  (ui_decline_bound (onNo initAppState)
    (UIReach.clickNo initAppState UIReach.init noDisabled_zero)).1

/-! ### The particle animation loop (`EmojiFlowEverywhere`) -/

/-- The `Particle` record of `App.tsx` lines 13-26. -/
structure Particle where
  id : String
  emoji : String
  sx : ℚ
  sy : ℚ
  dx : ℚ
  dy : ℚ
  rotate : ℚ
  size : ℚ
  duration : ℚ
  delay : ℚ
deriving DecidableEq

/-- `EMOJI_POOL` (`App.tsx` lines 28-41). -/
def EMOJI_POOL : List String :=
  ["💖", "💘", "✨", "🌸", "🥰", "💝", "🎉", "😍", "💗", "💞", "🌹", "🫶"]

/-- `rand(min, max)` (`App.tsx` lines 43-45), with the `Math.random()` draw
`r ∈ [0, 1)` passed explicitly: `min + r * (max - min)`. -/
def rand (lo hi r : ℚ) : ℚ := lo + r * (hi - lo)

/-- The id built in `createParticle` (`App.tsx` line 48):
the template string `Date.now()-Math.random().toString(16).slice(2)`,
with the timestamp and the hex fraction passed explicitly. -/
def particleId (now : ℕ) (hex : String) : String := toString now ++ "-" ++ hex

/-- One particle's worth of environment inputs: the `Date.now()` timestamp,
the hex fraction of the id draw, and the nine further `Math.random()` draws
of `createParticle`, in call order. -/
structure Draw where
  now : ℕ
  hex : String
  rSx : ℚ
  rSy : ℚ
  rDx : ℚ
  rDy : ℚ
  rEmoji : ℚ
  rRot : ℚ
  rSize : ℚ
  rDur : ℚ
  rDel : ℚ
deriving DecidableEq

/-- `createParticle(w, h)` (`App.tsx` lines 47-70) as a function of the
container size and the random draws. -/
def createParticle (w h : ℚ) (d : Draw) : Particle :=
  { id := particleId d.now d.hex
    emoji := EMOJI_POOL.getD (Int.toNat ⌊d.rEmoji * (EMOJI_POOL.length : ℚ)⌋) ""
    sx := rand 0 (max 1 w) d.rSx
    sy := rand 0 (max 1 h) d.rSy
    dx := rand (-140) 140 d.rDx
    dy := -(rand 180 420 d.rDy)
    rotate := rand (-120) 120 d.rRot
    size := rand 14 28 d.rSize
    duration := rand (24/10) (38/10) d.rDur
    delay := rand 0 (18/100) d.rDel }

/-- The props of `EmojiFlowEverywhere` with their default values
(`App.tsx` lines 72-82). -/
structure Config where
  rateMs : ℕ := 140
  perTick : ℕ := 2
  maxParticles : ℕ := 70
deriving DecidableEq

/-- The configuration `App` passes (`App.tsx` lines 221-226):
`rateMs = 140`, `perTick = 2`, `maxParticles = 70`. -/
def appCfg : Config := ⟨140, 2, 70⟩

/-- A particle in the active set, annotated with the time (ms) at which its
spawn batch was created. -/
structure Spawned where
  particle : Particle
  spawnedAt : ℚ
deriving DecidableEq

/-- A pending removal timeout: when it fires and which particle id its
callback filters out (`App.tsx` lines 115-121). -/
structure Timer where
  fireAt : ℚ
  pid : String
deriving DecidableEq

/-- The component state: the active particle list (`particles`), the pending
removal timeouts (`timeoutsRef`), and the current time in ms. -/
structure LoopState where
  particles : List Spawned
  timers : List Timer
  now : ℚ
deriving DecidableEq

/-- State at mount before activation: no particles, no timers, time 0. -/
def initLoopState : LoopState := ⟨[], [], 0⟩

/-- The capacity policy inside `setParticles` (`App.tsx` lines 108-113):
`next.length > maxParticles ? next.slice(next.length - maxParticles) : next`. -/
def evictCap (maxP : ℕ) (next : List Spawned) : List Spawned :=
  if maxP < next.length then next.drop (next.length - maxP) else next

/-- The removal delay of a particle (`App.tsx` line 116):
`(p.duration + p.delay + 0.25) * 1000` ms. -/
def ttlMs (p : Particle) : ℚ := (p.duration + p.delay + 25/100) * 1000

/-- One call of `spawn` (`App.tsx` lines 99-122): create `perTick` particles
from the given draws, append them to the active set under the capacity
policy, and schedule one removal timeout per created particle. -/
def spawnStep (cfg : Config) (w h : ℚ) (draws : List Draw) (s : LoopState) :
    LoopState :=
  { particles := evictCap cfg.maxParticles
      (s.particles ++ (draws.map (createParticle w h)).map
        (fun p => ⟨p, s.now⟩))
    timers := s.timers ++ (draws.map (createParticle w h)).map
      (fun p => ⟨s.now + ttlMs p, p.id⟩)
    now := s.now }

/-- A removal timeout firing (`App.tsx` lines 117-119): the callback removes
every particle whose id equals the captured id, and the timer is spent. -/
def fireStep (t : Timer) (s : LoopState) : LoopState :=
  { particles := s.particles.filter (fun sp => sp.particle.id ≠ t.pid)
    timers := s.timers.erase t
    now := s.now }

/-- Time passing by `d` ms with no event firing. -/
def advanceStep (d : ℚ) (s : LoopState) : LoopState :=
  { s with now := s.now + d }

/-- The deactivation path (`App.tsx` lines 93-96 and the effect cleanup at
lines 127-130): `clearAllTimeouts()` then `setParticles([])`. -/
def deactivate (s : LoopState) : LoopState :=
  { s with particles := [], timers := [] }

/-- The states the component can reach: from the mount state by spawn ticks
(each consuming `perTick` draws), removal timeouts firing no earlier than
their deadline, time passing forward, and deactivation. -/
inductive Reach (cfg : Config) : LoopState → Prop
  | init : Reach cfg initLoopState
  | spawn (w h : ℚ) (draws : List Draw) (s : LoopState)
      (hlen : draws.length = cfg.perTick) (hs : Reach cfg s) :
      Reach cfg (spawnStep cfg w h draws s)
  | fire (t : Timer) (s : LoopState) (ht : t ∈ s.timers)
      (htime : t.fireAt ≤ s.now) (hs : Reach cfg s) : Reach cfg (fireStep t s)
  | advance (d : ℚ) (hd : 0 ≤ d) (s : LoopState) (hs : Reach cfg s) :
      Reach cfg (advanceStep d s)
  | stop (s : LoopState) (hs : Reach cfg s) : Reach cfg (deactivate s)

/-- The sustained-activation run: `spawn()` is called immediately on
activation (tick 0 at time 0) and then by `setInterval` every `rateMs` ms
(tick `k` at time `k * rateMs`), with `ds k` the draws of tick `k`. -/
def runTicks (cfg : Config) (w h : ℚ) (ds : ℕ → List Draw) : ℕ → LoopState
  | 0 => spawnStep cfg w h (ds 0) initLoopState
  | k + 1 =>
    spawnStep cfg w h (ds (k + 1))
      (advanceStep (cfg.rateMs : ℚ) (runTicks cfg w h ds k))

/-! ### Invariants of the particle loop -/

theorem evictCap_length_le (m : ℕ) (l : List Spawned) :
    (evictCap m l).length ≤ m := by
  unfold evictCap
  split
  · rw [List.length_drop]; omega
  · omega

theorem evictCap_suffix (m : ℕ) (l : List Spawned) : evictCap m l <:+ l := by
  unfold evictCap
  split
  · exact List.drop_suffix _ _
  · exact List.suffix_refl _

theorem spawnStep_particles_length (cfg : Config) (w h : ℚ)
    (draws : List Draw) (s : LoopState)
    (hsmall : s.particles.length + draws.length ≤ cfg.maxParticles) :
    (spawnStep cfg w h draws s).particles.length
      = s.particles.length + draws.length := by
  have hl : (s.particles ++ (draws.map (createParticle w h)).map
      (fun p => (⟨p, s.now⟩ : Spawned))).length
      = s.particles.length + draws.length := by simp
  show (evictCap cfg.maxParticles _).length = _
  unfold evictCap
  rw [if_neg (by rw [hl]; omega)]
  exact hl

/-- A sample environment input, used to build concrete reachable states. -/
def sampleDraw : Draw := ⟨7, "a3f", 1/2, 1/2, 1/2, 1/2, 1/2, 1/2, 1/2, 1/2, 1/2⟩

/-- The state after the activation tick with two identical draws. -/
def sampleState : LoopState :=
  spawnStep appCfg 800 600 [sampleDraw, sampleDraw] initLoopState

theorem sampleState_reachable : Reach appCfg sampleState :=
  Reach.spawn 800 600 [sampleDraw, sampleDraw] initLoopState rfl Reach.init

/-- C2: at every reachable observation point the active particle set holds at
most `maxParticles` particles, and the capacity policy applied when appending
a batch keeps a suffix of the appended list (the newest entries): when the
ceiling is exceeded it drops exactly the oldest entries, leaving the newest
`maxParticles`. -/
theorem particle_capacity (cfg : Config) (s : LoopState) (h : Reach cfg s) :
    s.particles.length ≤ cfg.maxParticles
    ∧ ∀ prev created : List Spawned,
        evictCap cfg.maxParticles (prev ++ created) <:+ prev ++ created
        ∧ (cfg.maxParticles < (prev ++ created).length →
            evictCap cfg.maxParticles (prev ++ created)
              = (prev ++ created).drop
                  ((prev ++ created).length - cfg.maxParticles)
            ∧ (evictCap cfg.maxParticles (prev ++ created)).length
                = cfg.maxParticles) := by
  refine ⟨?_, ?_⟩
  · induction h with
    | init => exact Nat.zero_le _
    | spawn w hh draws t hlen ht ih => exact evictCap_length_le _ _
    | fire tm t htm htime ht ih =>
      exact le_trans (List.length_filter_le _ _) ih
    | advance d hd t ht ih => exact ih
    | stop t ht ih => exact Nat.zero_le _
  · intro prev created
    refine ⟨evictCap_suffix _ _, fun hgt => ⟨?_, ?_⟩⟩
    · unfold evictCap; rw [if_pos hgt]
    · unfold evictCap; rw [if_pos hgt, List.length_drop]; omega

/-- C2 witness: the capacity bound at the concrete reachable state after the
activation tick, and the eviction branch at a concrete 71-element append. -/
theorem particle_capacity_witness :
    sampleState.particles.length ≤ appCfg.maxParticles
    ∧ (evictCap appCfg.maxParticles
        (List.replicate 71 (⟨createParticle 800 600 sampleDraw, 0⟩ : Spawned)
          ++ [])).length = appCfg.maxParticles :=
  ⟨(particle_capacity appCfg sampleState sampleState_reachable).1,
   (((particle_capacity appCfg sampleState sampleState_reachable).2
      (List.replicate 71 (⟨createParticle 800 600 sampleDraw, 0⟩ : Spawned))
      []).2 (by decide)).2⟩

/-- C3: deactivation clears the active particle set and cancels every pending
removal timer, leaving zero of each; it is idempotent; and a removal callback
applied after the clear is a no-op (so no removal can take effect once the
set is cleared, and repeated cancellation with no timers pending is safe —
every operation here is a total function). -/
theorem deactivate_clears (s : LoopState) :
    (deactivate s).particles = [] ∧ (deactivate s).timers = []
    ∧ deactivate (deactivate s) = deactivate s
    ∧ ∀ t : Timer, fireStep t (deactivate s) = deactivate s :=
  ⟨rfl, rfl, rfl, fun _t => rfl⟩

/-- C7: on activation the loop spawns a batch immediately (tick 0 at time 0,
with `perTick = 2` giving exactly 2 active particles, between 2 and
`maxParticles`), ticks recur every `rateMs` ms (tick `k` is at time
`k * rateMs`), and every tick creates `perTick` particles (witnessed by the
`(k + 1) * perTick` removal timers scheduled after tick `k`), while the
active count stays at most `maxParticles`. -/
theorem activation_tick_schedule (w h : ℚ) (ds : ℕ → List Draw)
    (hlen : ∀ i, (ds i).length = appCfg.perTick) :
    (runTicks appCfg w h ds 0).particles.length = 2
    ∧ (∀ k, (runTicks appCfg w h ds k).particles.length
        ≤ appCfg.maxParticles)
    ∧ (∀ k, (runTicks appCfg w h ds k).now = (k : ℚ) * (appCfg.rateMs : ℚ))
    ∧ (∀ k, (runTicks appCfg w h ds k).timers.length
        = (k + 1) * appCfg.perTick) := by
  refine ⟨?_, ?_, ?_, ?_⟩
  · rw [show runTicks appCfg w h ds 0
        = spawnStep appCfg w h (ds 0) initLoopState from rfl]
    rw [spawnStep_particles_length appCfg w h (ds 0) initLoopState
      (by rw [hlen 0]; exact Nat.le_refl _ |>.trans (by norm_num [appCfg, initLoopState]))]
    rw [hlen 0]
    rfl
  · intro k
    cases k with
    | zero => exact evictCap_length_le _ _
    | succ k => exact evictCap_length_le _ _
  · intro k
    induction k with
    | zero =>
      show initLoopState.now = (0 : ℚ) * (appCfg.rateMs : ℚ)
      norm_num [initLoopState]
    | succ k ih =>
      show (runTicks appCfg w h ds k).now + (appCfg.rateMs : ℚ)
          = ((k + 1 : ℕ) : ℚ) * (appCfg.rateMs : ℚ)
      rw [ih]
      push_cast
      ring
  · intro k
    induction k with
    | zero =>
      show (initLoopState.timers ++ ((ds 0).map (createParticle w h)).map
        (fun p => (⟨initLoopState.now + ttlMs p, p.id⟩ : Timer))).length
          = (0 + 1) * appCfg.perTick
      simp [initLoopState, hlen 0]
    | succ k ih =>
      show ((runTicks appCfg w h ds k).timers
          ++ ((ds (k + 1)).map (createParticle w h)).map
            (fun p => (⟨(runTicks appCfg w h ds k).now + (appCfg.rateMs : ℚ)
                + ttlMs p, p.id⟩ : Timer))).length
          = (k + 1 + 1) * appCfg.perTick
      rw [List.length_append, ih]
      simp [hlen (k + 1)]
      ring

/-- C7 witness: the schedule at the concrete draw source that yields two
particles per tick. -/
theorem activation_tick_schedule_witness :
    (runTicks appCfg 800 600 (fun _ => [sampleDraw, sampleDraw])
      0).particles.length = 2 :=
  (activation_tick_schedule 800 600 (fun _ => [sampleDraw, sampleDraw])
    (fun _ => rfl)).1

/-- C8: every particle in the active set of a reachable state was spawned at
or before the current time, and carries a pending removal timer for its id
that fires exactly `(duration + delay + 0.25) * 1000` ms after its spawn
time. -/
theorem particle_removal_scheduled (cfg : Config) (s : LoopState)
    (h : Reach cfg s) :
    ∀ sp ∈ s.particles, sp.spawnedAt ≤ s.now
      ∧ ∃ tm ∈ s.timers, tm.pid = sp.particle.id
          ∧ tm.fireAt = sp.spawnedAt
              + (sp.particle.duration + sp.particle.delay + 25/100) * 1000 := by
  induction h with
  | init =>
    intro sp hsp
    exact absurd hsp (List.not_mem_nil sp)
  | spawn w hh draws t hlen ht ih =>
    intro sp hsp
    have hsp' : sp ∈ t.particles ++ (draws.map (createParticle w hh)).map
        (fun p => (⟨p, t.now⟩ : Spawned)) :=
      (evictCap_suffix _ _).subset hsp
    rcases List.mem_append.mp hsp' with hold | hnew
    · obtain ⟨hle, tm, htm, hpid, hfire⟩ := ih sp hold
      exact ⟨hle, tm, List.mem_append_left _ htm, hpid, hfire⟩
    · rcases List.mem_map.mp hnew with ⟨p, hp, rfl⟩
      refine ⟨le_refl _, ⟨t.now + ttlMs p, p.id⟩, ?_, rfl, rfl⟩
      exact List.mem_append_right _ (List.mem_map.mpr ⟨p, hp, rfl⟩)
  | fire tm t htm htime ht ih =>
    intro sp hsp
    have hfil := List.mem_filter.mp hsp
    have hne : sp.particle.id ≠ tm.pid := by simpa using hfil.2
    obtain ⟨hle, tm', htm', hpid, hfire⟩ := ih sp hfil.1
    have hne' : tm' ≠ tm := by
      intro heq
      rw [heq] at hpid
      exact hne hpid.symm
    exact ⟨hle, tm', (List.mem_erase_of_ne hne').mpr htm', hpid, hfire⟩
  | advance d hd t ht ih =>
    intro sp hsp
    obtain ⟨hle, rest⟩ := ih sp hsp
    exact ⟨le_trans hle (by show t.now ≤ t.now + d; linarith), rest⟩
  | stop t ht ih =>
    intro sp hsp
    exact absurd hsp (List.not_mem_nil sp)

/-- C8 witness: the spawn-time/removal-deadline invariant at a concrete
particle of the concrete reachable state after the activation tick. -/
theorem particle_removal_scheduled_witness :
    (⟨createParticle 800 600 sampleDraw, 0⟩ : Spawned).spawnedAt
        ≤ sampleState.now
      ∧ ∃ tm ∈ sampleState.timers,
          tm.pid = (⟨createParticle 800 600 sampleDraw, 0⟩ : Spawned).particle.id
          ∧ tm.fireAt = (⟨createParticle 800 600 sampleDraw, 0⟩ : Spawned).spawnedAt
              + ((⟨createParticle 800 600 sampleDraw, 0⟩ : Spawned).particle.duration
                + (⟨createParticle 800 600 sampleDraw, 0⟩ : Spawned).particle.delay
                + 25/100) * 1000 :=
  particle_removal_scheduled appCfg sampleState sampleState_reachable
    ⟨createParticle 800 600 sampleDraw, 0⟩
    (by
      rw [show sampleState.particles
        = [⟨createParticle 800 600 sampleDraw, 0⟩,
           ⟨createParticle 800 600 sampleDraw, 0⟩] from rfl]
      exact List.mem_cons_self _ _)

/-! ### Particle ids

The id of a particle is the template string
`Date.now()-Math.random().toString(16).slice(2)`.  Two creation events
drawing the same timestamp and the same random value produce the same id,
so ids are not unconditionally unique; they are unique exactly as far as
the draw pairs are.  To prove the injectivity on distinct draws we first
characterise `Nat.repr` through an explicit digit-list function. -/

/-- The decimal digit characters of a natural number, most significant
first: the list underlying `Nat.repr`. -/
def decChars (n : ℕ) : List Char :=
  if _h : n < 10 then [Nat.digitChar n]
  else decChars (n / 10) ++ [Nat.digitChar (n % 10)]
decreasing_by exact Nat.div_lt_self (by omega) (by omega)

theorem decChars_of_lt {n : ℕ} (h : n < 10) :
    decChars n = [Nat.digitChar n] := by
  rw [decChars, dif_pos h]

theorem decChars_of_ge {n : ℕ} (h : ¬ n < 10) :
    decChars n = decChars (n / 10) ++ [Nat.digitChar (n % 10)] := by
  rw [decChars, dif_neg h]

theorem toDigitsCore_eq_decChars (fuel n : ℕ) (ds : List Char)
    (h : n < fuel) : Nat.toDigitsCore 10 fuel n ds = decChars n ++ ds := by
  induction fuel generalizing n ds with
  | zero => omega
  | succ fuel ih =>
    rw [Nat.toDigitsCore]
    by_cases h0 : n / 10 = 0
    · rw [if_pos h0]
      have hn : n < 10 := by omega
      rw [decChars_of_lt hn, Nat.mod_eq_of_lt hn]
      rfl
    · rw [if_neg h0]
      rw [decChars_of_ge (show ¬ n < 10 by omega)]
      rw [ih (n / 10) _
        (lt_of_lt_of_le (Nat.div_lt_self (by omega) (by omega))
          (Nat.lt_succ_iff.mp h))]
      simp

theorem repr_data_eq_decChars (n : ℕ) : (Nat.repr n).data = decChars n := by
  show (Nat.toDigits 10 n).asString.data = decChars n
  rw [Nat.toDigits, toDigitsCore_eq_decChars _ _ _ (Nat.lt_succ_self n)]
  exact List.append_nil _

theorem digitChar_ne_dash (n : ℕ) : Nat.digitChar n ≠ '-' := by
  by_cases hlt : n < 16
  · have H : ∀ a : Fin 16, Nat.digitChar a.val ≠ '-' := by decide
    exact H ⟨n, hlt⟩
  · have h0 : n ≠ 0 := by omega
    have h1 : n ≠ 1 := by omega
    have h2 : n ≠ 2 := by omega
    have h3 : n ≠ 3 := by omega
    have h4 : n ≠ 4 := by omega
    have h5 : n ≠ 5 := by omega
    have h6 : n ≠ 6 := by omega
    have h7 : n ≠ 7 := by omega
    have h8 : n ≠ 8 := by omega
    have h9 : n ≠ 9 := by omega
    have h10 : n ≠ 10 := by omega
    have h11 : n ≠ 11 := by omega
    have h12 : n ≠ 12 := by omega
    have h13 : n ≠ 13 := by omega
    have h14 : n ≠ 14 := by omega
    have h15 : n ≠ 15 := by omega
    simp [Nat.digitChar, h0, h1, h2, h3, h4, h5, h6, h7, h8, h9, h10, h11,
      h12, h13, h14, h15]

theorem digitChar_inj_lt :
    ∀ a b : Fin 10, Nat.digitChar a.val = Nat.digitChar b.val → a = b := by
  decide

theorem decChars_ne_nil (n : ℕ) : decChars n ≠ [] := by
  by_cases h : n < 10
  · rw [decChars_of_lt h]; simp
  · rw [decChars_of_ge h]; simp

theorem decChars_no_dash (n : ℕ) : '-' ∉ decChars n := by
  induction n using Nat.strong_induction_on with
  | _ n ih =>
    by_cases h : n < 10
    · rw [decChars_of_lt h]
      intro hm
      exact digitChar_ne_dash n (List.mem_singleton.mp hm).symm
    · rw [decChars_of_ge h]
      intro hm
      rcases List.mem_append.mp hm with hm1 | hm2
      · exact ih (n / 10) (Nat.div_lt_self (by omega) (by omega)) hm1
      · exact digitChar_ne_dash _ (List.mem_singleton.mp hm2).symm

theorem decChars_inj : ∀ m n : ℕ, decChars m = decChars n → m = n := by
  intro m
  induction m using Nat.strong_induction_on with
  | _ m ih =>
    intro n heq
    by_cases hm : m < 10 <;> by_cases hn : n < 10
    · rw [decChars_of_lt hm, decChars_of_lt hn] at heq
      have hc : Nat.digitChar m = Nat.digitChar n := by simpa using heq
      have := digitChar_inj_lt ⟨m, hm⟩ ⟨n, hn⟩ hc
      simpa using this
    · rw [decChars_of_lt hm, decChars_of_ge hn] at heq
      have hlen := congrArg List.length heq
      simp at hlen
      exact absurd hlen (decChars_ne_nil _)
    · rw [decChars_of_ge hm, decChars_of_lt hn] at heq
      have hlen := congrArg List.length heq
      simp at hlen
      exact absurd hlen (decChars_ne_nil _)
    · rw [decChars_of_ge hm, decChars_of_ge hn] at heq
      obtain ⟨hpre, hlast⟩ := List.append_inj' heq rfl
      have hdiv : m / 10 = n / 10 :=
        ih (m / 10) (Nat.div_lt_self (by omega) (by omega)) (n / 10) hpre
      have hc : Nat.digitChar (m % 10) = Nat.digitChar (n % 10) := by
        simpa using hlast
      have hmod := digitChar_inj_lt ⟨m % 10, Nat.mod_lt _ (by omega)⟩
        ⟨n % 10, Nat.mod_lt _ (by omega)⟩ hc
      have hmod' : m % 10 = n % 10 := by simpa using hmod
      omega

theorem repr_no_dash (n : ℕ) : '-' ∉ (Nat.repr n).data := by
  rw [repr_data_eq_decChars]
  exact decChars_no_dash n

theorem append_dash_inj : ∀ (a1 t1 a2 t2 : List Char), '-' ∉ a1 → '-' ∉ a2 →
    a1 ++ '-' :: t1 = a2 ++ '-' :: t2 → a1 = a2 ∧ t1 = t2 := by
  intro a1
  induction a1 with
  | nil =>
    intro t1 a2 t2 _h1 h2 heq
    cases a2 with
    | nil => simpa using heq
    | cons c a2' =>
      simp only [List.nil_append, List.cons_append, List.cons.injEq] at heq
      exact absurd (List.mem_cons_self c a2') (heq.1 ▸ h2)
  | cons c a1' ih =>
    intro t1 a2 t2 h1 h2 heq
    cases a2 with
    | nil =>
      simp only [List.nil_append, List.cons_append, List.cons.injEq] at heq
      exact absurd (List.mem_cons_self c a1') (heq.1.symm ▸ h1)
    | cons c2 a2' =>
      simp only [List.cons_append, List.cons.injEq] at heq
      have h1' : '-' ∉ a1' := fun hm => h1 (List.mem_cons_of_mem c hm)
      have h2' : '-' ∉ a2' := fun hm => h2 (List.mem_cons_of_mem c2 hm)
      obtain ⟨hpre, hpost⟩ := ih t1 a2' t2 h1' h2' heq.2
      exact ⟨by rw [heq.1, hpre], hpost⟩

/-- C9 counterexample: the claim that any two particles created across the
lifetime of the loop have distinct ids fails.  A reachable state exists — one
spawn tick whose two creation events drew the same `Date.now()` millisecond
and the same `Math.random()` value — whose active set holds two particles
with the same id. -/
theorem unique_ids_cex :
    Reach appCfg sampleState
    ∧ sampleState.particles.length = 2
    ∧ ¬ (sampleState.particles.map (fun sp => sp.particle.id)).Nodup := by
  refine ⟨sampleState_reachable, by decide, by decide⟩

/-- C9 (amended): particle ids are unique for distinct draws — two creation
events whose `(Date.now(), Math.random hex)` inputs differ in either
component receive different id strings, provided the hex fractions contain
no dash (as `Math.random().toString(16).slice(2)` guarantees). -/
theorem unique_ids_amended (n1 n2 : ℕ) (h1 h2 : String)
    (hd1 : '-' ∉ h1.data) (hd2 : '-' ∉ h2.data)
    (hne : n1 ≠ n2 ∨ h1 ≠ h2) :
    particleId n1 h1 ≠ particleId n2 h2 := by
  intro heq
  have hdata : (Nat.repr n1).data ++ '-' :: h1.data
      = (Nat.repr n2).data ++ '-' :: h2.data := by
    have hd := congrArg String.data heq
    simpa [particleId, String.data_append] using hd
  obtain ⟨ha, ht⟩ := append_dash_inj _ _ _ _ (repr_no_dash n1)
    (repr_no_dash n2) hdata
  rcases hne with hn | hh
  · apply hn
    apply decChars_inj
    rw [← repr_data_eq_decChars, ← repr_data_eq_decChars, ha]
  · apply hh
    cases h1
    cases h2
    simp only at ht
    rw [ht]

/-- C9 (amended) witness: two draws differing in timestamp give different
ids. -/
theorem unique_ids_amended_witness :
    particleId 7 "a3f" ≠ particleId 8 "a3f" :=
  unique_ids_amended 7 8 "a3f" "a3f" (by decide) (by decide)
    (Or.inl (by decide))

end Marija
